import Mathlib

/-!
Shallow embedding of the difflex comparison engine
(`src/difflex/utils/comparator.py`, `src/difflex/modules/comparison_worker.py`,
`src/difflex/modules/parallel_comparison_widget.py`).

Python floats are modelled as `ℚ`, byte strings as `List Nat`, decoded text as
`List Char`.  File reads and image decodes, which can raise in Python, are
modelled as `Except String` inputs; each comparator is a total Lean function,
mirroring the fact that every comparator wraps its body in `try/except` and
returns a `ComparisonResult` on every path.
-/

/-- Embeds the Python class `ComparisonResult` (comparator.py lines 9-37):
a status symbol, a similarity percentage and a details string.  The Python
constructor defaults are `similarity=100.0`, `details=""`. -/
structure ComparisonResult where
  status : String
  similarity : ℚ := 100
  details : String := ""
  deriving DecidableEq, Repr

namespace ComparisonResult

/-- Python class attribute `IDENTICAL = "="`. -/
def IDENTICAL : String := "="

/-- Python class attribute `SIMILAR = "≒"`. -/
def SIMILAR : String := "≒"

/-- Python class attribute `SIMILAR_EXIF = "≒EX"`. -/
def SIMILAR_EXIF : String := "≒EX"

/-- Python class attribute `DIFFERENT = "≠"`. -/
def DIFFERENT : String := "≠"

end ComparisonResult

/-- Decoded Python text, one `Char` per Python character. -/
abbrev PyText := List Char

/-- Left-to-right non-overlapping `text.replace('\r\n', '\n')`
(comparator.py line 55, and also the first half of Python universal-newline
translation performed by `open(..., 'r')`). -/
def replaceCRLF : PyText → PyText
  | [] => []
  | [c] => [c]
  | c1 :: c2 :: rest =>
    if c1 = '\r' ∧ c2 = '\n' then '\n' :: replaceCRLF rest
    else c1 :: replaceCRLF (c2 :: rest)

/-- `text.replace('\r', '\n')` (comparator.py line 55): every remaining
carriage return becomes a newline. -/
def replaceCR (t : PyText) : PyText :=
  t.map fun c => if c = '\r' then '\n' else c

/-- The characters stripped by Python `str.rstrip()`: exactly the code
points for which CPython's `Py_UNICODE_ISSPACE` (equivalently
`str.isspace()`) holds — `\t\n\v\f\r`, the information/file/group/record/
unit separators `\x1c`–`\x1f`, space, `\x85` (NEL), `\xa0` (NBSP), and the
non-Latin-1 Unicode space characters. -/
def isPySpace (c : Char) : Bool :=
  c.toNat ∈ [0x09, 0x0a, 0x0b, 0x0c, 0x0d, 0x1c, 0x1d, 0x1e, 0x1f, 0x20,
    0x85, 0xa0, 0x1680, 0x2000, 0x2001, 0x2002, 0x2003, 0x2004, 0x2005,
    0x2006, 0x2007, 0x2008, 0x2009, 0x200a, 0x2028, 0x2029, 0x202f, 0x205f,
    0x3000]

/-- Python `line.rstrip()` (comparator.py line 57): remove trailing
whitespace. -/
def rstrip (l : PyText) : PyText :=
  (l.reverse.dropWhile isPySpace).reverse

/-- Embeds `TextComparator.normalize_text` (comparator.py lines 44-58):
replace `\r\n` then `\r` by `\n`, split on `\n`, strip trailing whitespace
from every line, re-join with `\n`. -/
def normalize_text (t : PyText) : PyText :=
  List.intercalate ['\n'] (((replaceCR (replaceCRLF t)).splitOn '\n').map rstrip)

/-- Python universal-newline translation applied by `open(file, 'r', ...)`
(mode `'r'` with default `newline=None`): every `\r\n` and every lone `\r`
in the decoded stream is translated to `\n` before `read()` returns. -/
def universalNewlines (t : PyText) : PyText :=
  replaceCR (replaceCRLF t)

/-- Python `bytes.decode('latin-1')`: maps byte `b` to the character with
code point `b`; it succeeds on every byte sequence. -/
def latin1Decode (bs : List Nat) : PyText :=
  bs.map fun b => Char.ofNat b

/-- The first four codecs tried by `TextComparator.compare`
(comparator.py lines 75, 85): `utf-8`, `utf-8-sig`, `shift-jis`, `cp932`.
These are Python-stdlib codecs, not repository code; they are modelled as
arbitrary partial decoding functions (`none` models `UnicodeDecodeError`).
The fifth codec `latin-1` is total and is modelled exactly (`latin1Decode`). -/
structure Decoders where
  utf8 : List Nat → Option PyText
  utf8Sig : List Nat → Option PyText
  shiftJis : List Nat → Option PyText
  cp932 : List Nat → Option PyText

/-- The `for encoding in [...]: try ... except UnicodeDecodeError: continue`
loop: first decoder that succeeds wins. -/
def firstSome : List (Option PyText) → Option PyText
  | [] => none
  | some t :: _ => some t
  | none :: rest => firstSome rest

/-- The encoding-fallback loop of `TextComparator.compare`
(comparator.py lines 75-81 and 85-91): try
`utf-8, utf-8-sig, shift-jis, cp932, latin-1` in order, return the first
successful decode, `none` when the `for`/`else` branch (all fail) is taken. -/
def decodeText (D : Decoders) (bs : List Nat) : Option PyText :=
  firstSome [D.utf8 bs, D.utf8Sig bs, D.shiftJis bs, D.cp932 bs,
    some (latin1Decode bs)]

/-- Length of the common prefix of two character lists. -/
def commonPrefixLen : List Char → List Char → Nat
  | a :: as, b :: bs => if a = b then commonPrefixLen as bs + 1 else 0
  | _, _ => 0

/-- Longest matching block of `difflib.SequenceMatcher.find_longest_match`
(stdlib, called from comparator.py line 107), modelled without the autojunk
popularity heuristic: returns `(i, j, k)` maximizing the match length `k` of
`a[i:i+k] = b[j:j+k]`, ties broken towards the smallest `i`, then the
smallest `j`. -/
def bestMatch (a b : List Char) : Nat × Nat × Nat :=
  (List.range a.length).foldl
    (fun best i =>
      (List.range b.length).foldl
        (fun best j =>
          let k := commonPrefixLen (a.drop i) (b.drop j)
          if best.2.2 < k then (i, j, k) else best)
        best)
    (0, 0, 0)

theorem commonPrefixLen_le_left (a b : List Char) :
    commonPrefixLen a b ≤ a.length := by
  induction a generalizing b with
  | nil => cases b <;> simp [commonPrefixLen]
  | cons x xs ih =>
    cases b with
    | nil => simp [commonPrefixLen]
    | cons y ys =>
      by_cases h : x = y <;> simp [commonPrefixLen, h]
      exact ih ys

theorem foldl_preserve {α β : Type} (P : β → Prop) (f : β → α → β)
    (l : List α) (init : β) (h0 : P init)
    (hf : ∀ acc x, P acc → P (f acc x)) : P (l.foldl f init) := by
  induction l generalizing init with
  | nil => exact h0
  | cons x xs ih => exact ih (f init x) (hf init x h0)

theorem bestMatch_bound (a b : List Char) :
    0 < (bestMatch a b).2.2 → (bestMatch a b).1 + (bestMatch a b).2.2 ≤ a.length := by
  unfold bestMatch
  refine foldl_preserve (fun t : Nat × Nat × Nat => 0 < t.2.2 → t.1 + t.2.2 ≤ a.length) _ _ _ ?_ ?_
  · intro h; simp at h
  · intro acc i hacc
    refine foldl_preserve (fun t : Nat × Nat × Nat => 0 < t.2.2 → t.1 + t.2.2 ≤ a.length) _ _ _ ?_ ?_
    · exact hacc
    · intro acc' j hacc'
      dsimp only
      split
      · intro hpos
        dsimp only at hpos ⊢
        have hk := commonPrefixLen_le_left (a.drop i) (b.drop j)
        simp only [List.length_drop] at hk
        omega
      · exact hacc'

/-- Total size of the matching blocks found by
`difflib.SequenceMatcher.get_matching_blocks`: recursively take the longest
matching block and recurse on the parts to its left and to its right. -/
def matchedTotal (a b : List Char) : Nat :=
  if h : (bestMatch a b).2.2 = 0 then 0
  else
    have hb := bestMatch_bound a b (Nat.pos_of_ne_zero h)
    have h1 : (a.take (bestMatch a b).1).length < a.length := by
      simp [List.length_take]; omega
    have h2 : (a.drop ((bestMatch a b).1 + (bestMatch a b).2.2)).length < a.length := by
      simp [List.length_drop]; omega
    matchedTotal (a.take (bestMatch a b).1) (b.take (bestMatch a b).2.1)
      + (bestMatch a b).2.2
      + matchedTotal (a.drop ((bestMatch a b).1 + (bestMatch a b).2.2))
          (b.drop ((bestMatch a b).2.1 + (bestMatch a b).2.2))
termination_by a.length

/-- `difflib.SequenceMatcher(None, a, b).ratio()`: `2*M/T` where `M` is the
total matched size and `T` the total length; `1.0` when both are empty. -/
def seqRatio (a b : PyText) : ℚ :=
  if a.length + b.length = 0 then 1
  else 2 * (matchedTotal a b : ℚ) / ((a.length : ℚ) + (b.length : ℚ))

namespace TextComparator

open ComparisonResult

/-- Embeds `TextComparator.compare` (comparator.py lines 60-115) over
modelled inputs: `r1`, `r2` are the outcomes of reading the two files'
bytes (`Except.error` models an I/O exception caught by the outer
`except Exception as e` at lines 114-115, producing `f"Error: {e}"`).
Decoding uses the encoding-fallback loop; a successful text-mode read then
passes through Python universal-newline translation before the strings are
compared. -/
def compare (D : Decoders) (r1 r2 : Except String (List Nat)) (thr : ℚ) :
    ComparisonResult :=
  match r1 with
  | .error e => ⟨DIFFERENT, 0, "Error: " ++ e⟩
  | .ok b1 =>
    match decodeText D b1 with
    | none => ⟨DIFFERENT, 0, "Cannot decode file1"⟩
    | some t1' =>
      match r2 with
      | .error e => ⟨DIFFERENT, 0, "Error: " ++ e⟩
      | .ok b2 =>
        match decodeText D b2 with
        | none => ⟨DIFFERENT, 0, "Cannot decode file2"⟩
        | some t2' =>
          let text1 := universalNewlines t1'
          let text2 := universalNewlines t2'
          if text1 = text2 then ⟨IDENTICAL, 100, ""⟩
          else
            let norm1 := normalize_text text1
            let norm2 := normalize_text text2
            if norm1 = norm2 then
              ⟨SIMILAR, 100, "Whitespace/newline differences only"⟩
            else
              let similarity := seqRatio norm1 norm2 * 100
              if thr ≤ similarity then
                ⟨SIMILAR, similarity, "Content mostly similar"⟩
              else
                ⟨DIFFERENT, similarity, "Content differs significantly"⟩

end TextComparator

/-- Model of a numpy dtype as far as `ImageComparator.compare` inspects it
(comparator.py line 166): whether it is `np.uint8`, whether it is a float
dtype (on which `np.iinfo` raises `ValueError`), and `np.iinfo(dtype).max`
for the integer dtypes. -/
structure NpDtype where
  isUint8 : Bool
  isFloat : Bool
  intMax : ℚ
  deriving Repr

/-- `max_diff = 255.0 if arr1.dtype == np.uint8 else float(np.iinfo(arr1.dtype).max)`
(comparator.py line 166); an `np.iinfo` failure on a float dtype raises and is
caught by the outer handler. -/
def npMaxDiff (d : NpDtype) : Except String ℚ :=
  if d.isUint8 then .ok 255
  else if d.isFloat then .error "instance of type float not supported by iinfo"
  else .ok d.intMax

/-- Result of `PIL.Image.open` plus `np.array`, as far as
`ImageComparator.compare` uses it: the pixel dimensions, the color mode, the
flattened pixel array obtained after converting the image to a given mode
(`pixelsIn m` models `np.array(img.convert(m))`, with `pixelsIn mode` equal to
`np.array(img)` for the image's own `mode`), and the numpy dtype of the
image's own-mode array. -/
structure ImgData where
  width : Nat
  height : Nat
  mode : String
  pixelsIn : String → List ℤ
  dtype : NpDtype

/-- A file presented to `ImageComparator.compare`: its raw bytes and the
outcome of decoding it as an image (`Except.error` models a `PIL` decode
exception). -/
structure ImgFile where
  bytes : List Nat
  img : Except String ImgData

/-- `np.mean(np.abs(arr1.astype(float) - arr2.astype(float)))` for two
equal-shape arrays, flattened. -/
def meanAbsDiff (a b : List ℤ) : ℚ :=
  ((List.zipWith (fun x y => ((x - y).natAbs : ℚ)) a b).sum) / (a.length : ℚ)

namespace ImageComparator

open ComparisonResult

/-- Embeds `ImageComparator.compare` (comparator.py lines 121-175) over
modelled inputs: `r1`, `r2` are the outcomes of reading the two files' raw
bytes; inside each `ImgFile`, `img` is the outcome of `Image.open`.  Any
raised error is caught by the outer handler (lines 174-175) and becomes
`Different` / 0 / `f"Error: {e}"`.  When the modes differ, the second image
is converted to the first image's mode (line 154), so the compared arrays
are `pixelsIn img1.mode` on both sides; `max_diff` comes from the first
array's dtype. -/
def compare (r1 r2 : Except String ImgFile) (thr : ℚ) : ComparisonResult :=
  match r1 with
  | .error e => ⟨DIFFERENT, 0, "Error: " ++ e⟩
  | .ok f1 =>
    match r2 with
    | .error e => ⟨DIFFERENT, 0, "Error: " ++ e⟩
    | .ok f2 =>
      if f1.bytes = f2.bytes then ⟨IDENTICAL, 100, ""⟩
      else
        match f1.img with
        | .error e => ⟨DIFFERENT, 0, "Error: " ++ e⟩
        | .ok img1 =>
          match f2.img with
          | .error e => ⟨DIFFERENT, 0, "Error: " ++ e⟩
          | .ok img2 =>
            if img1.width = img2.width ∧ img1.height = img2.height then
              let arr1 := img1.pixelsIn img1.mode
              let arr2 := img2.pixelsIn img1.mode
              if arr1 = arr2 then
                ⟨SIMILAR_EXIF, 100, "Pixel data identical, metadata differs"⟩
              else
                match npMaxDiff img1.dtype with
                | .error e => ⟨DIFFERENT, 0, "Error: " ++ e⟩
                | .ok maxDiff =>
                  let similarity := 100 - meanAbsDiff arr1 arr2 / maxDiff * 100
                  if thr ≤ similarity then
                    ⟨SIMILAR, similarity, "Pixels mostly similar"⟩
                  else
                    ⟨DIFFERENT, similarity, "Pixels differ significantly"⟩
            else ⟨DIFFERENT, 0, "Different dimensions"⟩

end ImageComparator

namespace BinaryComparator

open ComparisonResult

/-- Embeds `BinaryComparator.compare` (comparator.py lines 181-227) over
modelled inputs: `r1`, `r2` are the outcomes of reading the two files' raw
bytes; a read error is caught by the outer handler (lines 226-227).
`matching` counts `sum(1 for i in range(min_len) if data1[i] == data2[i])`. -/
def compare (r1 r2 : Except String (List Nat)) (thr : ℚ) : ComparisonResult :=
  match r1 with
  | .error e => ⟨DIFFERENT, 0, "Error: " ++ e⟩
  | .ok data1 =>
    match r2 with
    | .error e => ⟨DIFFERENT, 0, "Error: " ++ e⟩
    | .ok data2 =>
      if data1 = data2 then ⟨IDENTICAL, 100, ""⟩
      else
        let len1 := data1.length
        let len2 := data2.length
        if len1 = 0 ∧ len2 = 0 then ⟨IDENTICAL, 100, ""⟩
        else if len1 = 0 ∨ len2 = 0 then ⟨DIFFERENT, 0, "One file is empty"⟩
        else
          let minLen := min len1 len2
          let matching :=
            (List.range minLen).countP fun i => data1.getD i 0 = data2.getD i 0
          let maxLen := max len1 len2
          let similarity := (matching : ℚ) / (maxLen : ℚ) * 100
          if thr ≤ similarity then
            ⟨SIMILAR, similarity, "Binary data mostly similar"⟩
          else ⟨DIFFERENT, similarity, "Binary data differs"⟩

end BinaryComparator

/-! ### Directory tree alignment

`DirectoryComparisonWorker._collect_files` (comparison_worker.py lines 99-131)
and `ParallelComparisonWidget._scan_directories`
(parallel_comparison_widget.py lines 282-314) both walk every root and build a
dict `rel_path -> [abs_path | None] * len(roots)`.  The filesystem walk is
modelled by its outcome: for root `i`, a list `scans[i]` of the relative-path
strings of every entry found under that root.  The absolute path of relative
path `rel` under root `i` is represented by the pair `(i, rel)`. -/

/-- One slot array: `[None] * len(directories)` progressively filled with
absolute paths. -/
abbrev SlotArray := List (Option (Nat × String))

/-- `file_map[rel_path_str][dir_idx] = file_path` including the
`if rel_path_str not in file_map: file_map[rel_path_str] = [None] * n`
guard (comparison_worker.py lines 114-117): update the association list in
place when the key exists, append a fresh entry otherwise (Python dicts
append new keys at the end). -/
def fmUpdate (n : Nat) (i : Nat) (rel : String) :
    List (String × SlotArray) → List (String × SlotArray)
  | [] => [(rel, (List.replicate n none).set i (some (i, rel)))]
  | (k, v) :: rest =>
    if k = rel then (k, v.set i (some (i, rel))) :: rest
    else (k, v) :: fmUpdate n i rel rest

/-- The sequence of `(dir_idx, rel_path)` insertions performed by the nested
`for dir_idx, directory in enumerate(...)` / walk loops. -/
def scanSteps (scans : List (List String)) : List (Nat × String) :=
  (scans.enum.map fun p => p.2.map fun rel => (p.1, rel)).flatten

/-- The fully built `file_map` of `_collect_files` / `_scan_directories`. -/
def collectMap (scans : List (List String)) : List (String × SlotArray) :=
  (scanSteps scans).foldl (fun m s => fmUpdate scans.length s.1 s.2 m) []

/-- Python string comparison (code-point lexicographic) on character
lists, as a Boolean function that evaluates by kernel reduction. -/
def charListLe : List Char → List Char → Bool
  | [], _ => true
  | _ :: _, [] => false
  | a :: as, b :: bs =>
    if a < b then true else if b < a then false else charListLe as bs

/-- `sorted(file_map.items())` (comparison_worker.py line 121,
parallel_comparison_widget.py line 311): the aligned entries, sorted by
relative path.  The keys are unique, so any stable sort by the Python
string order (code-point lexicographic) produces the same list as
Python's `sorted` on the items. -/
def collect_files (scans : List (List String)) : List (String × SlotArray) :=
  List.insertionSort (fun a b => charListLe a.1.data b.1.data = true)
    (collectMap scans)

/-! ### Consecutive-pair dispatch -/

/-- Embeds `DirectoryComparisonWorker._compare_item`
(comparison_worker.py lines 133-154): for `i in range(len(paths) - 1)`,
append `None` when either `paths[i]` or `paths[i+1]` is `None`, otherwise
append the comparator result for that consecutive pair. -/
def compareItemResults {P R : Type} (cmp : P → P → R) (paths : List (Option P)) :
    List (Option R) :=
  (List.range (paths.length - 1)).map fun i =>
    match paths.getD i none, paths.getD (i + 1) none with
    | some a, some b => some (cmp a b)
    | _, _ => none

/-- A tree-item path as seen by `ParallelComparisonWidget._start_comparison`:
whether `path.exists()` and whether `path.is_dir()`. -/
structure WPath where
  pexists : Bool
  isDir : Bool
  deriving DecidableEq, Repr

/-- One slot of the `for i in range(len(file_paths) - 1)` loop of
`_start_comparison` (parallel_comparison_widget.py lines 544-560): the slot
stays uncomputed (`none`) when either side is missing (`continue`), does not
exist, or is a directory; otherwise the comparator runs on the consecutive
pair. -/
def pairSlot {R : Type} (cmp : WPath → WPath → R) :
    Option WPath → Option WPath → Option R
  | some p1, some p2 =>
    if p1.pexists && p2.pexists && !p1.isDir && !p2.isDir then some (cmp p1 p2)
    else none
  | _, _ => none

/-- Embeds the consecutive-pair loop of
`ParallelComparisonWidget._start_comparison` (lines 543-560): one outcome
slot per `i in range(len(file_paths) - 1)`. -/
def startComparisonSlots {R : Type} (cmp : WPath → WPath → R)
    (paths : List (Option WPath)) : List (Option R) :=
  (List.range (paths.length - 1)).map fun i =>
    pairSlot cmp (paths.getD i none) (paths.getD (i + 1) none)

/-! ### Helper lemmas -/

theorem decodeText_eq_some (D : Decoders) (bs : List Nat) :
    ∃ t, decodeText D bs = some t := by
  unfold decodeText
  cases D.utf8 bs <;> cases D.utf8Sig bs <;> cases D.shiftJis bs <;>
    cases D.cp932 bs <;> exact ⟨_, rfl⟩

/-- C8: for every readable file `f` and every threshold value, each of the
three comparators applied to the pair `(f, f)` returns status `Identical`
with similarity 100.  For the text comparator the two reads of the same
file produce the same bytes, the deterministic decode loop produces the
same string twice, and the exact-match branch fires; the image and binary
comparators hit their raw-byte fast paths. -/
theorem compare_self_identical :
    (∀ (D : Decoders) (b : List Nat) (thr : ℚ),
      TextComparator.compare D (.ok b) (.ok b) thr
        = ⟨ComparisonResult.IDENTICAL, 100, ""⟩)
    ∧ (∀ (f : ImgFile) (thr : ℚ),
      ImageComparator.compare (.ok f) (.ok f) thr
        = ⟨ComparisonResult.IDENTICAL, 100, ""⟩)
    ∧ (∀ (d : List Nat) (thr : ℚ),
      BinaryComparator.compare (.ok d) (.ok d) thr
        = ⟨ComparisonResult.IDENTICAL, 100, ""⟩) := by
  refine ⟨?_, ?_, ?_⟩
  · intro D b thr
    obtain ⟨t, ht⟩ := decodeText_eq_some D b
    simp [TextComparator.compare, ht]
  · intro f thr
    simp [ImageComparator.compare]
  · intro d thr
    simp [BinaryComparator.compare]

/-- C2 (amended): behaviour of `BinaryComparator.compare` on readable
files: both empty gives `Identical` 100; exactly one empty gives
`Different`, 0, `"One file is empty"`; otherwise the similarity is the
number of matching offsets below the shorter length divided by the longer
length, times 100, with status `Similar` iff it reaches the threshold;
and the concrete scenario `01 02 03` vs `01 02 04` at threshold 50 gives
`Similar` at `2/3*100`. -/
theorem binary_compare_spec (d1 d2 : List Nat) (thr : ℚ) :
    (d1 = [] → d2 = [] → BinaryComparator.compare (.ok d1) (.ok d2) thr
        = ⟨ComparisonResult.IDENTICAL, 100, ""⟩)
    ∧ (d1 = [] ∧ d2 ≠ [] ∨ d1 ≠ [] ∧ d2 = [] →
        BinaryComparator.compare (.ok d1) (.ok d2) thr
          = ⟨ComparisonResult.DIFFERENT, 0, "One file is empty"⟩)
    ∧ (d1 ≠ d2 → d1 ≠ [] → d2 ≠ [] →
        (BinaryComparator.compare (.ok d1) (.ok d2) thr).similarity
            = (((List.range (min d1.length d2.length)).filter
                  fun i => d1.getD i 0 = d2.getD i 0).length : ℚ)
                / ((max d1.length d2.length : Nat) : ℚ) * 100
          ∧ (thr ≤ (BinaryComparator.compare (.ok d1) (.ok d2) thr).similarity →
              (BinaryComparator.compare (.ok d1) (.ok d2) thr).status
                = ComparisonResult.SIMILAR)
          ∧ ((BinaryComparator.compare (.ok d1) (.ok d2) thr).similarity < thr →
              (BinaryComparator.compare (.ok d1) (.ok d2) thr).status
                = ComparisonResult.DIFFERENT))
    ∧ BinaryComparator.compare (.ok [1, 2, 3]) (.ok [1, 2, 4]) 50
        = ⟨ComparisonResult.SIMILAR, 2 / 3 * 100, "Binary data mostly similar"⟩ := by
  refine ⟨?_, ?_, ?_, by
    norm_num [BinaryComparator.compare, List.range_succ, List.countP_cons,
      List.countP_nil, List.countP_append, List.getD, ComparisonResult.SIMILAR]⟩
  · rintro rfl rfl
    simp [BinaryComparator.compare]
  · rintro (⟨h1, h2⟩ | ⟨h1, h2⟩)
    · subst h1
      have hne : ([] : List Nat) ≠ d2 := fun h => h2 h.symm
      simp [BinaryComparator.compare, hne, List.length_eq_zero, h2]
    · subst h2
      simp [BinaryComparator.compare, h1, List.length_eq_zero]
  · intro hne h1 h2
    have hl1 : d1.length ≠ 0 := fun h => h1 (List.length_eq_zero.mp h)
    have hl2 : d2.length ≠ 0 := fun h => h2 (List.length_eq_zero.mp h)
    simp only [BinaryComparator.compare, List.countP_eq_length_filter,
      if_neg hne, if_neg (by simp [hl1] : ¬(d1.length = 0 ∧ d2.length = 0)),
      if_neg (by simp [hl1, hl2] : ¬(d1.length = 0 ∨ d2.length = 0))]
    simp only [apply_ite ComparisonResult.similarity,
      apply_ite ComparisonResult.status, ite_self]
    refine ⟨trivial, ?_, ?_⟩
    · intro hth
      rw [if_pos hth]
    · intro hth
      rw [if_neg (not_le.mpr hth)]

/-- C2 counterexample: at a concrete input where exactly one file is empty,
the returned details string is `"One file is empty"` (capital O, as written
in comparator.py line 211), not `"one file is empty"` as the claim quotes
it. -/
theorem binary_empty_details_cex :
    BinaryComparator.compare (.ok ([] : List Nat)) (.ok [1]) 100
        = ⟨ComparisonResult.DIFFERENT, 0, "One file is empty"⟩
    ∧ (BinaryComparator.compare (.ok ([] : List Nat)) (.ok [1]) 100).details
        ≠ "one file is empty" := by
  have h : BinaryComparator.compare (.ok ([] : List Nat)) (.ok [1]) 100
      = ⟨ComparisonResult.DIFFERENT, 0, "One file is empty"⟩ := by
    simp [BinaryComparator.compare]
  exact ⟨h, by rw [h]; decide⟩

/-- Witness for `binary_compare_spec`: the one-empty clause and the
similarity formula, instantiated at concrete inputs. -/
theorem binary_compare_spec_witness :
    BinaryComparator.compare (.ok ([] : List Nat)) (.ok [7]) 100
        = ⟨ComparisonResult.DIFFERENT, 0, "One file is empty"⟩
    ∧ (BinaryComparator.compare (.ok [1, 2, 3]) (.ok [1, 2, 4]) 50).similarity
        = (((List.range (min [1, 2, 3].length [1, 2, 4].length)).filter
              fun i => [1, 2, 3].getD i 0 = [1, 2, 4].getD i 0).length : ℚ)
            / ((max [1, 2, 3].length [1, 2, 4].length : Nat) : ℚ) * 100 :=
  ⟨(binary_compare_spec [] [7] 100).2.1 (Or.inl ⟨rfl, by decide⟩),
   ((binary_compare_spec [1, 2, 3] [1, 2, 4] 50).2.2.1 (by decide) (by decide)
      (by decide)).1⟩

/-- C4: for every pair of readable image files with unequal raw bytes,
equal pixel dimensions, and pixel arrays that are exactly equal after the
second image is converted to the first image's mode,
`ImageComparator.compare` returns `SIMILAR_EXIF` (the SimilarMetadataOnly
status) with similarity 100 and never `Identical`, for any threshold. -/
theorem image_metadata_only (f1 f2 : ImgFile) (i1 i2 : ImgData) (thr : ℚ)
    (hb : f1.bytes ≠ f2.bytes) (h1 : f1.img = .ok i1) (h2 : f2.img = .ok i2)
    (hw : i1.width = i2.width) (hh : i1.height = i2.height)
    (hp : i1.pixelsIn i1.mode = i2.pixelsIn i1.mode) :
    ImageComparator.compare (.ok f1) (.ok f2) thr
        = ⟨ComparisonResult.SIMILAR_EXIF, 100, "Pixel data identical, metadata differs"⟩
    ∧ (ImageComparator.compare (.ok f1) (.ok f2) thr).status
        ≠ ComparisonResult.IDENTICAL := by
  have h : ImageComparator.compare (.ok f1) (.ok f2) thr
      = ⟨ComparisonResult.SIMILAR_EXIF, 100, "Pixel data identical, metadata differs"⟩ := by
    simp [ImageComparator.compare, hb, h1, h2, hw, hh, hp]
  exact ⟨h, by rw [h]; decide⟩

/-- Witness for `image_metadata_only`: two 1×1 RGB images with the same
pixel value but different raw bytes. -/
theorem image_metadata_only_witness :
    ImageComparator.compare
        (.ok ⟨[0], .ok ⟨1, 1, "RGB", fun _ => [5], ⟨true, false, 255⟩⟩⟩)
        (.ok ⟨[1], .ok ⟨1, 1, "RGB", fun _ => [5], ⟨true, false, 255⟩⟩⟩) 99
        = ⟨ComparisonResult.SIMILAR_EXIF, 100, "Pixel data identical, metadata differs"⟩ :=
  (image_metadata_only _ _ _ _ 99 (by decide) rfl rfl rfl rfl rfl).1

/-- C6: every comparator is a total function of its inputs (it has type
`... → ComparisonResult`, mirroring the `try/except` wrapper on every
Python path), and every modelled internal failure — an I/O error reading
either file, or an image decode error — is converted into a `Different`
outcome with similarity 0 and the non-empty details string `f"Error: {e}"`. -/
theorem comparators_recover_errors :
    (∀ (D : Decoders) (e : String) (r2 : Except String (List Nat)) (thr : ℚ),
        TextComparator.compare D (.error e) r2 thr
          = ⟨ComparisonResult.DIFFERENT, 0, "Error: " ++ e⟩)
    ∧ (∀ (D : Decoders) (b1 : List Nat) (e : String) (thr : ℚ),
        TextComparator.compare D (.ok b1) (.error e) thr
          = ⟨ComparisonResult.DIFFERENT, 0, "Error: " ++ e⟩)
    ∧ (∀ (e : String) (r2 : Except String ImgFile) (thr : ℚ),
        ImageComparator.compare (.error e) r2 thr
          = ⟨ComparisonResult.DIFFERENT, 0, "Error: " ++ e⟩)
    ∧ (∀ (f1 : ImgFile) (e : String) (thr : ℚ),
        ImageComparator.compare (.ok f1) (.error e) thr
          = ⟨ComparisonResult.DIFFERENT, 0, "Error: " ++ e⟩)
    ∧ (∀ (f1 f2 : ImgFile) (e : String) (thr : ℚ),
        f1.bytes ≠ f2.bytes → f1.img = .error e →
          ImageComparator.compare (.ok f1) (.ok f2) thr
            = ⟨ComparisonResult.DIFFERENT, 0, "Error: " ++ e⟩)
    ∧ (∀ (f1 f2 : ImgFile) (i1 : ImgData) (e : String) (thr : ℚ),
        f1.bytes ≠ f2.bytes → f1.img = .ok i1 → f2.img = .error e →
          ImageComparator.compare (.ok f1) (.ok f2) thr
            = ⟨ComparisonResult.DIFFERENT, 0, "Error: " ++ e⟩)
    ∧ (∀ (e : String) (r2 : Except String (List Nat)) (thr : ℚ),
        BinaryComparator.compare (.error e) r2 thr
          = ⟨ComparisonResult.DIFFERENT, 0, "Error: " ++ e⟩)
    ∧ (∀ (b1 : List Nat) (e : String) (thr : ℚ),
        BinaryComparator.compare (.ok b1) (.error e) thr
          = ⟨ComparisonResult.DIFFERENT, 0, "Error: " ++ e⟩)
    ∧ (∀ e : String, ("Error: " ++ e : String) ≠ "") := by
  refine ⟨?_, ?_, ?_, ?_, ?_, ?_, ?_, ?_, ?_⟩
  · intro D e r2 thr
    simp [TextComparator.compare]
  · intro D b1 e thr
    obtain ⟨t1, h1⟩ := decodeText_eq_some D b1
    simp [TextComparator.compare, h1]
  · intro e r2 thr
    simp [ImageComparator.compare]
  · intro f1 e thr
    simp [ImageComparator.compare]
  · intro f1 f2 e thr hb h1
    simp [ImageComparator.compare, hb, h1]
  · intro f1 f2 i1 e thr hb h1 h2
    simp [ImageComparator.compare, hb, h1, h2]
  · intro e r2 thr
    simp [BinaryComparator.compare]
  · intro b1 e thr
    simp [BinaryComparator.compare]
  · intro e h
    have hd := congrArg String.data h
    rw [String.data_append] at hd
    rw [show "Error: ".data = ['E', 'r', 'r', 'o', 'r', ':', ' '] from rfl] at hd
    simp at hd

/-- Witness for `comparators_recover_errors`: the image-decode-failure
clause at a concrete input. -/
theorem comparators_recover_errors_witness :
    ImageComparator.compare (.ok ⟨[0], .error "cannot identify image file"⟩)
        (.ok ⟨[1], .error "cannot identify image file"⟩) 99
      = ⟨ComparisonResult.DIFFERENT, 0, "Error: " ++ "cannot identify image file"⟩ :=
  comparators_recover_errors.2.2.2.2.1 ⟨[0], .error "cannot identify image file"⟩
    ⟨[1], .error "cannot identify image file"⟩ "cannot identify image file" 99
    (by decide) rfl

/-- C7: the decode loop always terminates with a decoded string, because
the final `latin-1` fallback decodes every byte sequence; consequently the
`for`/`else` branches returning `"Cannot decode file1"` /
`"Cannot decode file2"` are unreachable whenever both reads succeed. -/
theorem decode_fallback_total :
    (∀ (D : Decoders) (bs : List Nat), (decodeText D bs).isSome = true)
    ∧ (∀ (D : Decoders) (b1 b2 : List Nat) (thr : ℚ),
        (TextComparator.compare D (.ok b1) (.ok b2) thr).details
            ≠ "Cannot decode file1"
        ∧ (TextComparator.compare D (.ok b1) (.ok b2) thr).details
            ≠ "Cannot decode file2") := by
  refine ⟨?_, ?_⟩
  · intro D bs
    obtain ⟨t, ht⟩ := decodeText_eq_some D bs
    simp [ht]
  · intro D b1 b2 thr
    obtain ⟨t1, h1⟩ := decodeText_eq_some D b1
    obtain ⟨t2, h2⟩ := decodeText_eq_some D b2
    simp only [TextComparator.compare, h1, h2]
    constructor <;>
    · simp only [apply_ite ComparisonResult.details]
      split
      · decide
      · split
        · decide
        · split <;> decide

/-- A concrete stand-in for the four configurable codecs that agrees with
the real Python codecs on pure-ASCII byte strings (`utf-8`, `utf-8-sig`
without a BOM, `shift-jis` and `cp932` all decode ASCII bytes to the same
characters): succeeds exactly when every byte is below 128. -/
def asciiDecode (bs : List Nat) : Option PyText :=
  if bs.all (· < 128) then some (bs.map Char.ofNat) else none

/-- The decoder set used for concrete text-comparison evaluations. -/
def asciiDecoders : Decoders :=
  ⟨asciiDecode, asciiDecode, asciiDecode, asciiDecode⟩

/-- C3 counterexample.  First: the raw decoded strings of the two files
`"hello\n"` and `"hello\r\n"` are unequal and equal after normalization —
the claim's hypothesis — yet `TextComparator.compare` returns `Identical`
(the text-mode `open` translates `\r\n` to `\n` before the strings are
compared), not `Similar` at 100.  Second: in the trailing-whitespace case
that does reach the normalization branch, the details string is
`"Whitespace/newline differences only"` (capitalized), not the claim's
`"whitespace/newline differences only"`. -/
theorem text_newline_identical_cex :
    decodeText asciiDecoders [104, 101, 108, 108, 111, 10]
        = some ['h', 'e', 'l', 'l', 'o', '\n']
    ∧ decodeText asciiDecoders [104, 101, 108, 108, 111, 13, 10]
        = some ['h', 'e', 'l', 'l', 'o', '\r', '\n']
    ∧ (['h', 'e', 'l', 'l', 'o', '\n'] : PyText) ≠ ['h', 'e', 'l', 'l', 'o', '\r', '\n']
    ∧ normalize_text ['h', 'e', 'l', 'l', 'o', '\n']
        = normalize_text ['h', 'e', 'l', 'l', 'o', '\r', '\n']
    ∧ TextComparator.compare asciiDecoders (.ok [104, 101, 108, 108, 111, 10])
        (.ok [104, 101, 108, 108, 111, 13, 10]) 95
        = ⟨ComparisonResult.IDENTICAL, 100, ""⟩
    ∧ (TextComparator.compare asciiDecoders (.ok [104, 101, 108, 108, 111, 32, 10])
        (.ok [104, 101, 108, 108, 111, 10]) 95).details
        ≠ "whitespace/newline differences only" := by
  refine ⟨by decide, by decide, by decide, by decide, by decide, by decide⟩

/-- C3 (amended): for every pair of readable text files whose decoded
contents, after the universal-newline translation performed by text-mode
reading, are unequal but equal after normalization (i.e. the files differ
only in trailing whitespace on lines), `TextComparator.compare` returns
`Similar` with similarity exactly 100 and details
`"Whitespace/newline differences only"` — never `Identical` — for any
threshold. -/
theorem text_whitespace_only_similar (D : Decoders) (b1 b2 : List Nat)
    (t1' t2' : PyText) (thr : ℚ)
    (h1 : decodeText D b1 = some t1') (h2 : decodeText D b2 = some t2')
    (hne : universalNewlines t1' ≠ universalNewlines t2')
    (hnorm : normalize_text (universalNewlines t1')
        = normalize_text (universalNewlines t2')) :
    TextComparator.compare D (.ok b1) (.ok b2) thr
        = ⟨ComparisonResult.SIMILAR, 100, "Whitespace/newline differences only"⟩
    ∧ (TextComparator.compare D (.ok b1) (.ok b2) thr).status
        ≠ ComparisonResult.IDENTICAL := by
  have h : TextComparator.compare D (.ok b1) (.ok b2) thr
      = ⟨ComparisonResult.SIMILAR, 100, "Whitespace/newline differences only"⟩ := by
    simp [TextComparator.compare, h1, h2, hne, hnorm]
  exact ⟨h, by rw [h]; decide⟩

/-- Witness for `text_whitespace_only_similar`: `"hello \n"` vs
`"hello\n"` (a trailing space on the first line). -/
theorem text_whitespace_only_similar_witness :
    TextComparator.compare asciiDecoders (.ok [104, 101, 108, 108, 111, 32, 10])
        (.ok [104, 101, 108, 108, 111, 10]) 95
        = ⟨ComparisonResult.SIMILAR, 100, "Whitespace/newline differences only"⟩ :=
  (text_whitespace_only_similar asciiDecoders _ _
      ['h', 'e', 'l', 'l', 'o', ' ', '\n'] ['h', 'e', 'l', 'l', 'o', '\n'] 95
      (by decide) (by decide) (by decide) (by decide)).1

/-- C9 evidence: on two 1×1 mode-`I` (32-bit signed integer) images with
pixel values `-2147483648` and `2147483647` and differing raw bytes,
`ImageComparator.compare` returns a similarity of
`100 - 4294967295/2147483647*100 ≈ -100.00000005`, which lies outside
`[0, 100]`: the mean absolute pixel difference can exceed
`np.iinfo(dtype).max` for a signed dtype, contradicting the documented
`similarity: Similarity percentage (0-100)` of `ComparisonResult`. -/
theorem image_similarity_out_of_range :
    ImageComparator.compare
        (.ok ⟨[0], .ok ⟨1, 1, "I", fun _ => [-2147483648], ⟨false, false, 2147483647⟩⟩⟩)
        (.ok ⟨[1], .ok ⟨1, 1, "I", fun _ => [2147483647], ⟨false, false, 2147483647⟩⟩⟩)
        99
        = ⟨ComparisonResult.DIFFERENT, 100 - 4294967295 / 2147483647 * 100,
            "Pixels differ significantly"⟩
    ∧ (ImageComparator.compare
        (.ok ⟨[0], .ok ⟨1, 1, "I", fun _ => [-2147483648], ⟨false, false, 2147483647⟩⟩⟩)
        (.ok ⟨[1], .ok ⟨1, 1, "I", fun _ => [2147483647], ⟨false, false, 2147483647⟩⟩⟩)
        99).similarity < 0 := by
  have h : ImageComparator.compare
      (.ok ⟨[0], .ok ⟨1, 1, "I", fun _ => [-2147483648], ⟨false, false, 2147483647⟩⟩⟩)
      (.ok ⟨[1], .ok ⟨1, 1, "I", fun _ => [2147483647], ⟨false, false, 2147483647⟩⟩⟩)
      99
      = ⟨ComparisonResult.DIFFERENT, 100 - 4294967295 / 2147483647 * 100,
          "Pixels differ significantly"⟩ := by
    simp only [ImageComparator.compare, npMaxDiff, meanAbsDiff]
    norm_num
  refine ⟨h, by rw [h]; norm_num⟩

theorem getD_map_range {β : Type} (n i : Nat) (f : Nat → Option β) (hi : i < n) :
    ((List.range n).map f).getD i none = f i := by
  rw [List.getD_eq_getElem?_getD, List.getElem?_map, List.getElem?_range hi]
  rfl

/-- C5: both dispatchers produce exactly `N - 1` outcome slots, one per
consecutive pair `(i, i+1)`; a computed slot always comes from the
comparator applied to exactly the consecutive pair; and a slot is `None`
(for every comparator, i.e. no comparator is invoked) whenever either side
of the pair is absent — or, in the tree-widget dispatcher, does not exist
on disk or is a directory. -/
theorem dispatcher_consecutive_pairs :
    (∀ (R : Type) (cmp : WPath → WPath → R) (paths : List (Option WPath)),
      (startComparisonSlots cmp paths).length = paths.length - 1
      ∧ (∀ i, i < paths.length - 1 →
          (∀ r, (startComparisonSlots cmp paths).getD i none = some r →
            ∃ a b, paths.getD i none = some a ∧ paths.getD (i + 1) none = some b
              ∧ a.pexists = true ∧ b.pexists = true
              ∧ a.isDir = false ∧ b.isDir = false ∧ r = cmp a b)
          ∧ ((paths.getD i none = none ∨ paths.getD (i + 1) none = none
              ∨ (∃ a, paths.getD i none = some a
                  ∧ (a.pexists = false ∨ a.isDir = true))
              ∨ (∃ b, paths.getD (i + 1) none = some b
                  ∧ (b.pexists = false ∨ b.isDir = true))) →
            (startComparisonSlots cmp paths).getD i none = none)))
    ∧ (∀ (P R : Type) (cmp : P → P → R) (paths : List (Option P)),
      (compareItemResults cmp paths).length = paths.length - 1
      ∧ (∀ i, i < paths.length - 1 →
          ((compareItemResults cmp paths).getD i none = none
            ↔ (paths.getD i none = none ∨ paths.getD (i + 1) none = none))
          ∧ (∀ a b, paths.getD i none = some a → paths.getD (i + 1) none = some b →
              (compareItemResults cmp paths).getD i none = some (cmp a b)))) := by
  constructor
  · intro R cmp paths
    refine ⟨by simp [startComparisonSlots], ?_⟩
    intro i hi
    have hslot : (startComparisonSlots cmp paths).getD i none
        = pairSlot cmp (paths.getD i none) (paths.getD (i + 1) none) :=
      getD_map_range _ _ _ hi
    constructor
    · intro r hr
      rw [hslot] at hr
      rcases h1 : paths.getD i none with _ | a <;> rw [h1] at hr
      · simp [pairSlot] at hr
      rcases h2 : paths.getD (i + 1) none with _ | b <;> rw [h2] at hr
      · simp [pairSlot] at hr
      simp only [pairSlot] at hr
      split at hr
      · rename_i hcond
        simp only [Bool.and_eq_true, Bool.not_eq_true'] at hcond
        obtain ⟨⟨⟨hae, hbe⟩, had⟩, hbd⟩ := hcond
        exact ⟨a, b, rfl, rfl, hae, hbe, had, hbd,
          (Option.some.injEq _ _).mp hr.symm⟩
      · cases hr
    · intro hcase
      rw [hslot]
      rcases h1 : paths.getD i none with _ | a
      · simp [pairSlot]
      rcases h2 : paths.getD (i + 1) none with _ | b
      · simp [pairSlot]
      simp only [pairSlot]
      rcases hcase with hc | hc | ⟨a', ha', hc⟩ | ⟨b', hb', hc⟩
      · rw [h1] at hc; cases hc
      · rw [h2] at hc; cases hc
      · rw [h1] at ha'
        cases ha'
        rcases hc with hc | hc <;> simp [hc]
      · rw [h2] at hb'
        cases hb'
        rcases hc with hc | hc <;> simp [hc]
  · intro P R cmp paths
    refine ⟨by simp [compareItemResults], ?_⟩
    intro i hi
    have hslot : (compareItemResults cmp paths).getD i none
        = (match paths.getD i none, paths.getD (i + 1) none with
          | some a, some b => some (cmp a b)
          | _, _ => none) :=
      getD_map_range _ _ _ hi
    rw [hslot]
    constructor
    · rcases paths.getD i none with _ | a <;> rcases paths.getD (i + 1) none with _ | b <;>
        simp
    · intro a b ha hb
      rw [ha, hb]

/-- Witness for `dispatcher_consecutive_pairs`: three slots
`[existing file, missing, existing directory]`: both consecutive slots stay
`None` and the slot list has length 2. -/
theorem dispatcher_consecutive_pairs_witness :
    (startComparisonSlots (fun _ _ => (0 : Nat))
        [some ⟨true, false⟩, none, some ⟨true, true⟩]).length = 3 - 1
    ∧ (startComparisonSlots (fun _ _ => (0 : Nat))
        [some ⟨true, false⟩, none, some ⟨true, true⟩]).getD 0 none = none
    ∧ (startComparisonSlots (fun _ _ => (0 : Nat))
        [some ⟨true, false⟩, none, some ⟨true, true⟩]).getD 1 none = none :=
  ⟨((dispatcher_consecutive_pairs.1 Nat (fun _ _ => 0)
      [some ⟨true, false⟩, none, some ⟨true, true⟩]).1),
   (((dispatcher_consecutive_pairs.1 Nat (fun _ _ => 0)
      [some ⟨true, false⟩, none, some ⟨true, true⟩]).2 0 (by decide)).2
      (Or.inr (Or.inl rfl))),
   (((dispatcher_consecutive_pairs.1 Nat (fun _ _ => 0)
      [some ⟨true, false⟩, none, some ⟨true, true⟩]).2 1 (by decide)).2
      (Or.inl rfl))⟩

/-! ### Normalization lemmas (C10) -/

theorem splitOnP_pieces {α : Type} (p : α → Bool) (l : List α) :
    ∀ piece ∈ l.splitOnP p, (∀ x ∈ piece, p x = false) ∧ (∀ x ∈ piece, x ∈ l) := by
  induction l with
  | nil =>
    intro piece hp
    rw [List.splitOnP_nil] at hp
    simp only [List.mem_singleton] at hp
    subst hp
    simp
  | cons a l ih =>
    intro piece hp
    rw [List.splitOnP_cons] at hp
    by_cases hpa : p a = true
    · rw [if_pos hpa] at hp
      rcases List.mem_cons.mp hp with h | h
      · subst h; simp
      · obtain ⟨h1, h2⟩ := ih piece h
        exact ⟨h1, fun x hx => List.mem_cons_of_mem _ (h2 x hx)⟩
    · rw [if_neg hpa] at hp
      rcases hsp : l.splitOnP p with _ | ⟨hd, tl⟩
      · exact absurd hsp (List.splitOnP_ne_nil p l)
      rw [hsp, List.modifyHead_cons] at hp
      rcases List.mem_cons.mp hp with h | h
      · subst h
        have hhd := ih hd (by rw [hsp]; exact List.mem_cons_self _ _)
        constructor
        · intro x hx
          rcases List.mem_cons.mp hx with h | h
          · subst h
            exact Bool.eq_false_iff.mpr hpa
          · exact hhd.1 x h
        · intro x hx
          rcases List.mem_cons.mp hx with h | h
          · subst h; exact List.mem_cons_self _ _
          · exact List.mem_cons_of_mem _ (hhd.2 x h)
      · have htl := ih piece (by rw [hsp]; exact List.mem_cons_of_mem _ h)
        exact ⟨htl.1, fun x hx => List.mem_cons_of_mem _ (htl.2 x hx)⟩

theorem splitOn_pieces (l : PyText) :
    ∀ piece ∈ l.splitOn '\n', ('\n' ∉ piece) ∧ ∀ x ∈ piece, x ∈ l := by
  intro piece hp
  have h := splitOnP_pieces (fun c => c == '\n') l piece hp
  refine ⟨fun hx => ?_, h.2⟩
  have := h.1 '\n' hx
  simp at this

theorem splitOn_ne_nil (l : PyText) : l.splitOn '\n' ≠ [] :=
  List.splitOnP_ne_nil _ l

theorem rstrip_subset (l : PyText) : ∀ x ∈ rstrip l, x ∈ l := by
  intro x hx
  unfold rstrip at hx
  rw [List.mem_reverse] at hx
  exact List.mem_reverse.mp ((List.dropWhile_sublist isPySpace).mem hx)

theorem rstrip_idem (l : PyText) : rstrip (rstrip l) = rstrip l := by
  unfold rstrip
  rw [List.reverse_reverse, List.dropWhile_idempotent]

theorem not_mem_replaceCR (t : PyText) : '\r' ∉ replaceCR t := by
  unfold replaceCR
  intro h
  rw [List.mem_map] at h
  obtain ⟨c, _, hc⟩ := h
  by_cases h' : c = '\r'
  · rw [if_pos h'] at hc
    exact absurd hc (by decide)
  · rw [if_neg h'] at hc
    exact h' hc

theorem replaceCRLF_of_not_cr : ∀ l : PyText, '\r' ∉ l → replaceCRLF l = l
  | [], _ => rfl
  | [c], h => rfl
  | c1 :: c2 :: rest, h => by
    have h1 : c1 ≠ '\r' := fun hc => h (by simp [hc])
    simp only [replaceCRLF]
    rw [if_neg (fun hc => h1 hc.1)]
    rw [replaceCRLF_of_not_cr (c2 :: rest) fun hc => h (List.mem_cons_of_mem _ hc)]

theorem replaceCR_of_not_cr (l : PyText) (h : '\r' ∉ l) : replaceCR l = l := by
  unfold replaceCR
  have hc : ∀ c ∈ l, (if c = '\r' then '\n' else c) = id c := by
    intro c hcl
    rw [if_neg]
    · rfl
    · intro hc'
      subst hc'
      exact h hcl
  rw [List.map_congr_left hc, List.map_id]

theorem intercalate_cons_cons (c : Char) (p q : PyText) (t : List PyText) :
    List.intercalate [c] (p :: q :: t) = p ++ c :: List.intercalate [c] (q :: t) := by
  simp [List.intercalate, List.intersperse_cons_cons]

theorem mem_intercalate_char (c : Char) :
    ∀ (ps : List PyText), ∀ x ∈ List.intercalate [c] ps, x = c ∨ ∃ p ∈ ps, x ∈ p
  | [] => by simp [List.intercalate]
  | [p] => by
    intro x hx
    right
    refine ⟨p, List.mem_cons_self _ _, ?_⟩
    simpa [List.intercalate] using hx
  | p :: q :: t => by
    intro x hx
    rw [intercalate_cons_cons] at hx
    rcases List.mem_append.mp hx with h | h
    · exact Or.inr ⟨p, List.mem_cons_self _ _, h⟩
    · rcases List.mem_cons.mp h with h | h
      · exact Or.inl h
      · rcases mem_intercalate_char c (q :: t) x h with h | ⟨r, hr, hxr⟩
        · exact Or.inl h
        · exact Or.inr ⟨r, List.mem_cons_of_mem _ hr, hxr⟩

/-- C10: `normalize_text` is idempotent, its output contains no `\r`
character, and every line of its output (split on `\n`) is a fixed point of
`rstrip`, i.e. carries no trailing whitespace. -/
theorem normalize_text_spec (t : PyText) :
    normalize_text (normalize_text t) = normalize_text t
    ∧ '\r' ∉ normalize_text t
    ∧ ∀ line ∈ (normalize_text t).splitOn '\n', rstrip line = line := by
  set s' := replaceCR (replaceCRLF t) with hs'
  set ps := (s'.splitOn '\n').map rstrip with hps
  have hncr : '\r' ∉ s' := not_mem_replaceCR _
  have hpieces := splitOn_pieces s'
  have hps_nonl : ∀ p ∈ ps, '\n' ∉ p := by
    intro p hp
    rw [hps, List.mem_map] at hp
    obtain ⟨q, hq, rfl⟩ := hp
    intro hx
    exact (hpieces q hq).1 (rstrip_subset q '\n' hx)
  have hps_ne : ps ≠ [] := by
    rw [hps]
    intro hmap
    exact splitOn_ne_nil s' (List.map_eq_nil_iff.mp hmap)
  have hnorm_eq : normalize_text t = List.intercalate ['\n'] ps := rfl
  have hr : '\r' ∉ normalize_text t := by
    rw [hnorm_eq]
    intro hx
    rcases mem_intercalate_char '\n' ps '\r' hx with h | ⟨p, hp, hxp⟩
    · exact absurd h (by decide)
    · rw [hps, List.mem_map] at hp
      obtain ⟨q, hq, rfl⟩ := hp
      exact hncr ((hpieces q hq).2 '\r' (rstrip_subset q '\r' hxp))
  have hlines : (normalize_text t).splitOn '\n' = ps := by
    rw [hnorm_eq]
    exact List.splitOn_intercalate ps '\n' hps_nonl hps_ne
  refine ⟨?_, hr, ?_⟩
  · have h1 : replaceCRLF (normalize_text t) = normalize_text t :=
      replaceCRLF_of_not_cr _ hr
    have h2 : replaceCR (normalize_text t) = normalize_text t :=
      replaceCR_of_not_cr _ hr
    show List.intercalate ['\n']
        (((replaceCR (replaceCRLF (normalize_text t))).splitOn '\n').map rstrip)
      = normalize_text t
    rw [h1, h2, hlines]
    have hmap : ps.map rstrip = ps := by
      rw [hps, List.map_map]
      exact List.map_congr_left fun q _ => rstrip_idem q
    rw [hmap]
    exact hnorm_eq.symm
  · intro line hline
    rw [hlines, hps, List.mem_map] at hline
    obtain ⟨q, _, rfl⟩ := hline
    exact rstrip_idem q

/-- Witness for `normalize_text_spec` at the concrete input
`"a \r\nb "`. -/
theorem normalize_text_spec_witness :
    normalize_text (normalize_text ['a', ' ', '\r', '\n', 'b', ' '])
        = normalize_text ['a', ' ', '\r', '\n', 'b', ' ']
    ∧ rstrip ['a'] = ['a'] :=
  ⟨(normalize_text_spec ['a', ' ', '\r', '\n', 'b', ' ']).1,
   (normalize_text_spec ['a', ' ', '\r', '\n', 'b', ' ']).2.2 ['a'] (by decide)⟩

/-! ### Alignment lemmas (C1) -/

/-- Python dict lookup `file_map[rel]` on the association-list model. -/
def lookupFM : List (String × SlotArray) → String → Option SlotArray
  | [], _ => none
  | (k, v) :: rest, rel => if k = rel then some v else lookupFM rest rel

/-- The slot array determined by the insertions `done` processed so far. -/
def slotsFor (n : Nat) (done : List (Nat × String)) (rel : String) : SlotArray :=
  (List.range n).map fun i => if (i, rel) ∈ done then some (i, rel) else none

theorem lookupFM_fmUpdate_ne (n i : Nat) (rel rel' : String)
    (m : List (String × SlotArray)) (h : rel' ≠ rel) :
    lookupFM (fmUpdate n i rel m) rel' = lookupFM m rel' := by
  induction m with
  | nil =>
    have hne : ¬(rel = rel') := fun hh => h hh.symm
    simp [fmUpdate, lookupFM, hne]
  | cons kv rest ih =>
    obtain ⟨k, v⟩ := kv
    by_cases hk : k = rel
    · subst hk
      have hne : ¬(k = rel') := fun hh => h (hh ▸ rfl)
      simp [fmUpdate, lookupFM, hne]
    · by_cases hk' : k = rel' <;> simp [fmUpdate, lookupFM, hk, hk', ih, h]

theorem lookupFM_fmUpdate_eq (n i : Nat) (rel : String)
    (m : List (String × SlotArray)) :
    lookupFM (fmUpdate n i rel m) rel
      = some ((match lookupFM m rel with
          | some v => v
          | none => List.replicate n none).set i (some (i, rel))) := by
  induction m with
  | nil => simp [fmUpdate, lookupFM]
  | cons kv rest ih =>
    obtain ⟨k, v⟩ := kv
    by_cases hk : k = rel
    · subst hk
      simp [fmUpdate, lookupFM]
    · simp [fmUpdate, lookupFM, hk, ih]

theorem set_map_range {β : Type} (n j : Nat) (_hj : j < n) (f : Nat → β) (v : β) :
    ((List.range n).map f).set j v
      = (List.range n).map fun i => if i = j then v else f i := by
  apply List.ext_getElem
  · simp
  · intro idx h1 h2
    have hidx : idx < n := by simpa using h2
    rw [List.getElem_set]
    simp only [List.getElem_map, List.getElem_range]
    rcases eq_or_ne idx j with h | h
    · simp [h]
    · rw [if_neg (Ne.symm h), if_neg h]

/-- The dict invariant maintained by the insertion loop: after processing
the insertions `done`, the map contains exactly the relative paths seen so
far, each bound to the slot array filled at exactly the roots seen for it. -/
def FMInv (n : Nat) (done : List (Nat × String))
    (m : List (String × SlotArray)) : Prop :=
  ∀ rel, lookupFM m rel
      = if ∃ p ∈ done, p.2 = rel then some (slotsFor n done rel) else none

theorem FMInv_nil (n : Nat) : FMInv n [] [] := by
  intro rel
  simp [lookupFM]

theorem FMInv_step (n : Nat) (done : List (Nat × String))
    (m : List (String × SlotArray)) (j : Nat) (r : String)
    (hj : j < n) (hinv : FMInv n done m) :
    FMInv n (done ++ [(j, r)]) (fmUpdate n j r m) := by
  intro rel
  by_cases hrel : rel = r
  · subst hrel
    rw [lookupFM_fmUpdate_eq]
    rw [if_pos ⟨(j, rel), by simp, rfl⟩]
    congr 1
    rw [hinv rel]
    by_cases hex : ∃ p ∈ done, p.2 = rel
    · rw [if_pos hex]
      show (slotsFor n done rel).set j (some (j, rel)) = _
      unfold slotsFor
      rw [set_map_range n j hj]
      apply List.map_congr_left
      intro i hi
      rcases eq_or_ne i j with hij | hij
      · subst hij
        simp
      · simp [hij]
    · rw [if_neg hex]
      have hnot : ∀ i, (i, rel) ∉ done := fun i hi => hex ⟨(i, rel), hi, rfl⟩
      show (List.replicate n none).set j (some (j, rel)) = _
      have hrep : (List.replicate n (none : Option (Nat × String)))
          = (List.range n).map fun _ => none := by
        apply List.ext_getElem
        · simp
        · intro idx h1 h2
          simp
      rw [hrep, set_map_range n j hj]
      apply List.map_congr_left
      intro i hi
      rcases eq_or_ne i j with hij | hij
      · subst hij
        simp
      · simp [hij, hnot i]
  · rw [lookupFM_fmUpdate_ne n j r rel m hrel]
    rw [hinv rel]
    have hnr : ((j, r).2 = rel) = False := by
      simp
      exact fun hh => hrel hh.symm
    have hiff : (∃ p ∈ done ++ [(j, r)], p.2 = rel) ↔ ∃ p ∈ done, p.2 = rel := by
      simp only [List.mem_append, List.mem_singleton]
      constructor
      · rintro ⟨p, hp | hp, h2⟩
        · exact ⟨p, hp, h2⟩
        · subst hp
          exact absurd h2 (by simpa using hnr)
      · rintro ⟨p, hp, h2⟩
        exact ⟨p, Or.inl hp, h2⟩
    by_cases hex : ∃ p ∈ done, p.2 = rel
    · rw [if_pos hex, if_pos (hiff.mpr hex)]
      congr 1
      unfold slotsFor
      apply List.map_congr_left
      intro i hi
      have hmemiff : ((i, rel) ∈ done ++ [(j, r)]) ↔ (i, rel) ∈ done := by
        simp only [List.mem_append, List.mem_singleton]
        constructor
        · rintro (h | h)
          · exact h
          · exact absurd (congrArg Prod.snd h) (fun hh => hrel hh)
        · exact Or.inl
      rw [if_congr hmemiff rfl rfl]
    · rw [if_neg hex, if_neg (fun h => hex (hiff.mp h))]

theorem FMInv_fold (n : Nat) :
    ∀ (steps done : List (Nat × String)) (m : List (String × SlotArray)),
      FMInv n done m → (∀ p ∈ steps, p.1 < n) →
      FMInv n (done ++ steps)
        (steps.foldl (fun acc s => fmUpdate n s.1 s.2 acc) m)
  | [], done, m, hinv, _ => by simpa using hinv
  | s :: rest, done, m, hinv, hlt => by
    have h1 := FMInv_step n done m s.1 s.2 (hlt s (List.mem_cons_self _ _)) hinv
    have h2 := FMInv_fold n rest (done ++ [(s.1, s.2)]) (fmUpdate n s.1 s.2 m)
      h1 (fun p hp => hlt p (List.mem_cons_of_mem _ hp))
    simpa [List.append_assoc] using h2

theorem lookupFM_eq_none_iff (m : List (String × SlotArray)) (rel : String) :
    lookupFM m rel = none ↔ rel ∉ m.map Prod.fst := by
  induction m with
  | nil => simp [lookupFM]
  | cons kv rest ih =>
    obtain ⟨k, v⟩ := kv
    by_cases hk : k = rel
    · subst hk
      simp [lookupFM]
    · simp only [lookupFM, if_neg hk, List.map_cons, List.mem_cons]
      rw [ih]
      constructor
      · intro hnm
        rintro (hh | hh)
        · exact hk hh.symm
        · exact hnm hh
      · intro hnm hmem
        exact hnm (Or.inr hmem)

theorem keys_fmUpdate (n i : Nat) (rel : String) (m : List (String × SlotArray)) :
    (fmUpdate n i rel m).map Prod.fst
      = if rel ∈ m.map Prod.fst then m.map Prod.fst
        else m.map Prod.fst ++ [rel] := by
  induction m with
  | nil => simp [fmUpdate]
  | cons kv rest ih =>
    obtain ⟨k, v⟩ := kv
    by_cases hk : k = rel
    · subst hk
      simp [fmUpdate]
    · have hkr : ¬(rel = k) := fun hh => hk hh.symm
      by_cases hmem : rel ∈ rest.map Prod.fst <;>
        simp [fmUpdate, hk, hkr, hmem, ih]

theorem keysNodup_fmUpdate (n i : Nat) (rel : String)
    (m : List (String × SlotArray)) (h : (m.map Prod.fst).Nodup) :
    ((fmUpdate n i rel m).map Prod.fst).Nodup := by
  rw [keys_fmUpdate]
  split
  · exact h
  · rename_i hmem
    rw [List.nodup_append]
    exact ⟨h, List.nodup_singleton rel, List.disjoint_singleton.mpr hmem⟩

theorem keysNodup_fold :
    ∀ (n : Nat) (steps : List (Nat × String)) (m : List (String × SlotArray)),
      (m.map Prod.fst).Nodup →
      (((steps.foldl (fun acc s => fmUpdate n s.1 s.2 acc) m)).map Prod.fst).Nodup
  | _, [], _, h => h
  | n, s :: rest, m, h =>
    keysNodup_fold n rest (fmUpdate n s.1 s.2 m) (keysNodup_fmUpdate n s.1 s.2 m h)

theorem mem_iff_lookupFM (m : List (String × SlotArray))
    (h : (m.map Prod.fst).Nodup) (rel : String) (v : SlotArray) :
    (rel, v) ∈ m ↔ lookupFM m rel = some v := by
  induction m with
  | nil => simp [lookupFM]
  | cons kv rest ih =>
    obtain ⟨k, w⟩ := kv
    simp only [List.map_cons, List.nodup_cons] at h
    obtain ⟨hknot, hrest⟩ := h
    by_cases hk : k = rel
    · subst hk
      have hnot : (k, v) ∉ rest := fun hmem =>
        hknot (List.mem_map.mpr ⟨(k, v), hmem, rfl⟩)
      simp only [lookupFM, if_pos rfl, List.mem_cons]
      constructor
      · rintro (h | h)
        · cases h
          rfl
        · exact absurd h hnot
      · intro h
        cases h
        exact Or.inl rfl
    · simp only [lookupFM, if_neg hk, List.mem_cons]
      constructor
      · rintro (h | h)
        · cases h
          exact absurd rfl hk
        · exact (ih hrest).mp h
      · intro h
        exact Or.inr ((ih hrest).mpr h)

theorem mem_scanSteps (scans : List (List String)) (i : Nat) (rel : String) :
    (i, rel) ∈ scanSteps scans
      ↔ ∃ files, scans[i]? = some files ∧ rel ∈ files := by
  simp only [scanSteps, List.mem_flatten, List.mem_map]
  constructor
  · rintro ⟨l, ⟨p, hp, rfl⟩, hmem⟩
    rw [List.mem_map] at hmem
    obtain ⟨r, hr, heq⟩ := hmem
    obtain ⟨h1, h2⟩ := Prod.mk.injEq .. ▸ heq
    cases heq
    exact ⟨p.2, List.mem_enum_iff_getElem?.mp hp, hr⟩
  · rintro ⟨files, hfi, hmem⟩
    refine ⟨files.map fun r => (i, r), ⟨(i, files), ?_, rfl⟩, ?_⟩
    · exact List.mem_enum_iff_getElem?.mpr hfi
    · exact List.mem_map.mpr ⟨rel, hmem, rfl⟩

/-- C1: in an alignment run over the scanned roots (`scans[i]` lists the
relative paths found walking root `i`), every relative path present under
at least one root yields exactly one aligned entry (count 1 in the sorted
output, count 0 for paths under no root — so the key set equals the union
of the per-root walks, nothing lost or duplicated), and that entry's slot
array has length `N` with slot `i` non-empty exactly when root `i`
contains the path: `k` non-empty and `N - k` empty slots when the path is
present under `k` roots. -/
theorem treeAligner_alignment (scans : List (List String)) (rel : String) :
    ((collect_files scans).countP fun e => decide (e.1 = rel))
        = (if rel ∈ scans.flatten then 1 else 0)
    ∧ (∀ slots, (rel, slots) ∈ collect_files scans →
        slots.length = scans.length
        ∧ (∀ i, i < scans.length →
            ((slots.getD i none).isSome ↔ rel ∈ scans.getD i []))
        ∧ slots.countP (fun s => s.isSome)
            = ((List.range scans.length).countP fun i =>
                decide (rel ∈ scans.getD i []))
        ∧ slots.countP (fun s => s.isNone)
            = scans.length
              - ((List.range scans.length).countP fun i =>
                  decide (rel ∈ scans.getD i []))) := by
  have hlt : ∀ p ∈ scanSteps scans, p.1 < scans.length := by
    intro p hp
    obtain ⟨files, hfi, _⟩ := (mem_scanSteps scans p.1 p.2).mp hp
    obtain ⟨h, _⟩ := List.getElem?_eq_some.mp hfi
    exact h
  have hinv : FMInv scans.length (scanSteps scans) (collectMap scans) := by
    have h := FMInv_fold scans.length (scanSteps scans) [] [] (FMInv_nil _) hlt
    simpa [collectMap] using h
  have hnodup : ((collectMap scans).map Prod.fst).Nodup :=
    keysNodup_fold scans.length (scanSteps scans) [] (by simp)
  have hperm : (collect_files scans).Perm (collectMap scans) :=
    List.perm_insertionSort _ (collectMap scans)
  have hmemkeys : rel ∈ (collectMap scans).map Prod.fst ↔ rel ∈ scans.flatten := by
    constructor
    · intro h
      by_cases hex : ∃ p ∈ scanSteps scans, p.2 = rel
      · obtain ⟨p, hp, hp2⟩ := hex
        have hp' : (p.1, rel) ∈ scanSteps scans := by
          rw [← hp2]
          exact hp
        obtain ⟨files, hfi, hmem⟩ := (mem_scanSteps scans p.1 rel).mp hp'
        exact List.mem_flatten.mpr
          ⟨files, List.mem_iff_getElem?.mpr ⟨p.1, hfi⟩, hmem⟩
      · have hn := hinv rel
        rw [if_neg hex] at hn
        exact absurd h (by simpa using (lookupFM_eq_none_iff _ _).mp hn)
    · intro h
      obtain ⟨files, hfiles, hmem⟩ := List.mem_flatten.mp h
      obtain ⟨i, hfi⟩ := List.mem_iff_getElem?.mp hfiles
      have hstep : (i, rel) ∈ scanSteps scans :=
        (mem_scanSteps scans i rel).mpr ⟨files, hfi, hmem⟩
      have hn := hinv rel
      rw [if_pos ⟨(i, rel), hstep, rfl⟩] at hn
      by_contra hnot
      rw [← lookupFM_eq_none_iff] at hnot
      rw [hn] at hnot
      cases hnot
  have hstepiff : ∀ i, i < scans.length →
      ((i, rel) ∈ scanSteps scans ↔ rel ∈ scans.getD i []) := by
    intro i hi
    rw [mem_scanSteps]
    constructor
    · rintro ⟨files, hfi, hmem2⟩
      rw [List.getD_eq_getElem?_getD, hfi]
      exact hmem2
    · intro hmem2
      refine ⟨scans[i], List.getElem?_eq_getElem hi, ?_⟩
      rw [List.getD_eq_getElem?_getD, List.getElem?_eq_getElem hi] at hmem2
      exact hmem2
  constructor
  · rw [hperm.countP_eq]
    have hcnt2 : ((collectMap scans).countP fun e => decide (e.1 = rel))
        = List.count rel ((collectMap scans).map Prod.fst) := by
      rw [List.count_eq_countP, List.countP_map]
      apply List.countP_congr
      intro e _
      simp
    rw [hcnt2]
    by_cases hm : rel ∈ scans.flatten
    · rw [if_pos hm]
      exact List.count_eq_one_of_mem hnodup (hmemkeys.mpr hm)
    · rw [if_neg hm]
      exact List.count_eq_zero.mpr fun hc => hm (hmemkeys.mp hc)
  · intro slots hmem
    have hmem' : (rel, slots) ∈ collectMap scans := hperm.mem_iff.mp hmem
    have hlk : lookupFM (collectMap scans) rel = some slots :=
      (mem_iff_lookupFM _ hnodup rel slots).mp hmem'
    have hif := hinv rel
    rw [hlk] at hif
    by_cases hex : ∃ p ∈ scanSteps scans, p.2 = rel
    · rw [if_pos hex] at hif
      have hslots : slots = slotsFor scans.length (scanSteps scans) rel := by
        injection hif
      subst hslots
      have hcntS : (slotsFor scans.length (scanSteps scans) rel).countP
            (fun s => s.isSome)
          = ((List.range scans.length).countP fun i =>
              decide (rel ∈ scans.getD i [])) := by
        unfold slotsFor
        rw [List.countP_map]
        apply List.countP_congr
        intro i hi
        rw [List.mem_range] at hi
        simp only [Function.comp]
        by_cases hc : (i, rel) ∈ scanSteps scans
        · rw [if_pos hc]
          exact iff_of_true rfl (decide_eq_true ((hstepiff i hi).mp hc))
        · rw [if_neg hc]
          exact iff_of_false (by simp)
            (by simpa using fun hh => hc ((hstepiff i hi).mpr hh))
      refine ⟨by simp [slotsFor], ?_, hcntS, ?_⟩
      · intro i hi
        have hgd : (slotsFor scans.length (scanSteps scans) rel).getD i none
            = (if (i, rel) ∈ scanSteps scans then some (i, rel) else none) := by
          unfold slotsFor
          exact getD_map_range _ _ _ hi
        rw [hgd]
        by_cases hc : (i, rel) ∈ scanSteps scans
        · rw [if_pos hc]
          exact iff_of_true rfl ((hstepiff i hi).mp hc)
        · rw [if_neg hc]
          exact iff_of_false (by simp) fun hh => hc ((hstepiff i hi).mpr hh)
      · have hlen : (slotsFor scans.length (scanSteps scans) rel).length
            = scans.length := by simp [slotsFor]
        have hsplit := List.length_eq_countP_add_countP
          (fun s : Option (Nat × String) => s.isSome)
          (slotsFor scans.length (scanSteps scans) rel)
        have hng : (slotsFor scans.length (scanSteps scans) rel).countP
              (fun s => s.isNone)
            = (slotsFor scans.length (scanSteps scans) rel).countP
              (fun a => decide ¬(a.isSome = true)) := by
          apply List.countP_congr
          intro s _
          cases s <;> simp
        rw [hng]
        omega
    · rw [if_neg hex] at hif
      cases hif

/-- Witness for `treeAligner_alignment`: two roots `[["a", "b"], ["b"]]`
and the path `"b"`, present under both roots: exactly one aligned entry,
slot array `[some (0, "b"), some (1, "b")]` of length 2 with 2 non-empty
slots. -/
theorem treeAligner_alignment_witness :
    ((collect_files [["a", "b"], ["b"]]).countP fun e => decide (e.1 = "b"))
        = (if "b" ∈ [["a", "b"], ["b"]].flatten then 1 else 0)
    ∧ ([some ((0 : Nat), "b"), some ((1 : Nat), "b")] : SlotArray).length
        = [["a", "b"], ["b"]].length
    ∧ (([some ((0 : Nat), "b"), some ((1 : Nat), "b")] : SlotArray).countP
          fun s => s.isSome)
        = ((List.range [["a", "b"], ["b"]].length).countP fun i =>
            decide ("b" ∈ [["a", "b"], ["b"]].getD i [])) :=
  ⟨(treeAligner_alignment [["a", "b"], ["b"]] "b").1,
   ((treeAligner_alignment [["a", "b"], ["b"]] "b").2
      [some (0, "b"), some (1, "b")] (by decide)).1,
   ((treeAligner_alignment [["a", "b"], ["b"]] "b").2
      [some (0, "b"), some (1, "b")] (by decide)).2.2.1⟩
